import Mathlib

/-!
Verification development for the hx-optimistic repository (an htmx extension
providing optimistic UI updates with rollback on request failure).

The embedding translates the current extension sources:
  - src/src/extension.js          (update engine: begin / fail / revert / cleanup)
  - config.js  (bundled in src/hx-optimistic.js: getOptimisticConfig)
  - utils.js   (bundled in src/hx-optimistic.js: interpolateTemplate,
                resolveTargetChain, setOptimisticStateClass, getNextToken, ...)

Modelling conventions:
  - JS objects parsed from JSON are modelled by an inductive Json type, with a
    small executable JSON parser standing in for the JSON.parse builtin
    (integers only; fractional literals and unicode escapes are not modelled).
  - DOM element state is a record of: child content (a list of content items),
    class string, dataset, non-class non-data attributes, and plain JS
    properties.  The class attribute and the data-* attributes are reflections
    of the className string and of the dataset, so they are kept once; the
    visible attribute set of an element is the union of the three parts.
  - classList.add und classList.remove follow the DOM ordered-set semantics:
    parse the class string into a duplicate-free token list, edit, and
    reserialize joined by single spaces.
  - Browser services that the engine merely calls (template lookup by id,
    CSS selector matching) are either parameters or interpreted over a small
    concrete document model.
-/

namespace HxOptimistic

/-! ## String and class-list helpers -/

/-- Left brace character, kept out of string literals. -/
def lbrace : Char := Char.ofNat 123

/-- Right brace character, kept out of string literals. -/
def rbrace : Char := Char.ofNat 125

/-- Non-whitespace character test used by the splitter. -/
def nonWs (c : Char) : Bool := !c.isWhitespace

/-- Accumulator loop of the whitespace splitter; acc holds the current token
reversed. -/
def wsSplitAcc : List Char → List Char → List String
  | acc, [] => if acc = [] then [] else [String.mk acc.reverse]
  | acc, c :: cs =>
    if c.isWhitespace then
      if acc = [] then wsSplitAcc [] cs else String.mk acc.reverse :: wsSplitAcc [] cs
    else wsSplitAcc (c :: acc) cs

/-- Splits a character list on runs of whitespace.  This is the behaviour of
the JS split on a whitespace regex applied after trim, and of the DOM
ordered-set parser for class strings. -/
def wsSplit (l : List Char) : List String :=
  wsSplitAcc [] l

/-- Splits a string on runs of whitespace, dropping empty fragments. -/
def splitWs (s : String) : List String :=
  wsSplit s.data

/-- Character-level model of JS String.prototype.trim. -/
def strTrim (s : String) : String :=
  String.mk (((s.data.dropWhile Char.isWhitespace).reverse.dropWhile Char.isWhitespace).reverse)

/-- Character-level model of JS String.prototype.startsWith. -/
def strStartsWith (s p : String) : Bool :=
  p.data.isPrefixOf s.data

/-- Character-level model of JS String.prototype.includes for one character. -/
def strContains (s : String) (c : Char) : Bool :=
  s.data.contains c

/-- Deduplication loop; seen holds the tokens already emitted. -/
def dedupAcc : List String → List String → List String
  | _, [] => []
  | seen, x :: xs => if x ∈ seen then dedupAcc seen xs else x :: dedupAcc (x :: seen) xs

/-- Keeps the first occurrence of every element, in order: the DOM ordered-set
parser for class strings. -/
def dedupKeepFirst (l : List String) : List String :=
  dedupAcc [] l

/-- Token list of a DOM class string (ordered-set parse). -/
def classTokens (s : String) : List String :=
  dedupKeepFirst (splitWs s)

/-- Serialization of a class token list: tokens joined by single spaces. -/
def serializeTokens : List String → String
  | [] => ""
  | [t] => t
  | t :: rest => t ++ " " ++ serializeTokens rest

/-- Effect of classList.remove applied to each token of rem: the ordered set
is parsed, the tokens are dropped, and the set is reserialized (the DOM update
steps reserialize even when nothing was removed). -/
def classListRemove (s : String) (rem : List String) : String :=
  serializeTokens ((classTokens s).filter (fun t => t ∉ rem))

/-- Effect of classList.add of one token. -/
def classListAdd (s : String) (t : String) : String :=
  let ts := classTokens s
  if t ∈ ts then serializeTokens ts else serializeTokens (ts ++ [t])

/-- Membership of a token in a class string: classList.contains. -/
def classContains (s : String) (t : String) : Bool :=
  t ∈ classTokens s

/-! ## Association lists (JS object property maps, datasets, attribute maps) -/

/-- Updates a key in an association list in place, appending it when absent:
the JS property-write order semantics. -/
def setAssoc {β : Type} : List (String × β) → String → β → List (String × β)
  | [], k, v => [(k, v)]
  | (k₀, v₀) :: rest, k, v =>
    if k₀ = k then (k, v) :: rest else (k₀, v₀) :: setAssoc rest k v

/-- Reads a key from an association list (first binding wins, as JS objects
hold each key once). -/
def lookupAssoc {β : Type} : List (String × β) → String → Option β
  | [], _ => none
  | (k₀, v₀) :: rest, k => if k₀ = k then some v₀ else lookupAssoc rest k

/-- Deletes a key from an association list. -/
def delAssoc {β : Type} (l : List (String × β)) (k : String) : List (String × β) :=
  l.filter (fun p => p.1 ≠ k)

/-! ## The Json model and a parser standing in for the JSON.parse builtin -/

/-- Values produced by JSON.parse.  Numbers are modelled as exact rationals:
every JSON numeric literal denotes a terminating decimal, represented here
without the IEEE-754 rounding JSON.parse applies (the claims consult numbers
only through sign tests and comparisons with small integers, where rounding
cannot change the outcome). -/
inductive Json where
  | null : Json
  | bool (b : Bool) : Json
  | num (n : Rat) : Json
  | str (s : String) : Json
  | arr (xs : List Json) : Json
  | obj (kvs : List (String × Json)) : Json
deriving Inhabited

/-- JS typeof x === object && x !== null: true for objects and arrays. -/
def jsIsObjectType : Json → Bool
  | .obj _ => true
  | .arr _ => true
  | _ => false

/-- JS truthiness of a JSON-derived value. -/
def jsTruthy : Json → Bool
  | .null => false
  | .bool b => b
  | .num n => n ≠ 0
  | .str s => s ≠ ""
  | .obj _ => true
  | .arr _ => true

/-- Smallest exponent k in the fuel window with den dividing 10^k, for
rendering a terminating decimal. -/
def tenPowFuel : Nat → Nat → Nat → Option Nat
  | 0, _, _ => none
  | fuel + 1, k, den => if 10 ^ k % den = 0 then some k else tenPowFuel fuel (k + 1) den

/-- Exactly w decimal digits of v, most significant first. -/
def natDecDigits : Nat → Nat → List Char
  | 0, _ => []
  | w + 1, v => natDecDigits w (v / 10) ++ [Char.ofNat (48 + v % 10)]

/-- Decimal rendering of a rational with terminating expansion, as JS renders
a number: integral values render with no point, fractional values with their
shortest exact expansion (the denominator of a parsed JSON number divides a
power of ten, so the window always suffices for values a claim evaluates; the
exponent notation JS uses beyond 1e21 and below 1e-6, and the
shortest-round-trip digit selection on non-terminating doubles, are outside
the model). -/
def ratToDec (q : Rat) : String :=
  if q.den = 1 then toString q.num
  else
    match tenPowFuel 400 1 q.den with
    | some k =>
      let a := q.num.natAbs * (10 ^ k / q.den)
      let sign := if q.num < 0 then "-" else ""
      sign ++ toString (a / 10 ^ k) ++ "." ++ String.mk (natDecDigits k (a % 10 ^ k))
    | none => toString q.num ++ "/" ++ toString q.den

/-- JS string coercion of a JSON-derived value, as used when a value is
assigned to textContent or returned from a replace callback. -/
def jsToDOMString : Json → String
  | .null => "null"
  | .bool b => if b then "true" else "false"
  | .num n => ratToDec n
  | .str s => s
  | .arr _ => ""
  | .obj _ => "[object Object]"

/-- Whitespace accepted between JSON tokens. -/
def jsonWs (c : Char) : Bool :=
  c = ' ' ∨ c = '\t' ∨ c = '\n' ∨ c = '\r'

/-- Skips leading JSON whitespace. -/
def skipWs : List Char → List Char
  | [] => []
  | c :: cs => if jsonWs c then skipWs cs else c :: cs

/-- Value of one hex digit, in either case. -/
def hexVal (c : Char) : Option Nat :=
  if '0' ≤ c ∧ c ≤ '9' then some (c.toNat - 48)
  else if 'a' ≤ c ∧ c ≤ 'f' then some (c.toNat - 87)
  else if 'A' ≤ c ∧ c ≤ 'F' then some (c.toNat - 55)
  else none

/-- Prepends a decoded character to a string-parse result. -/
def strCons (ch : Char) : Option (String × List Char) → Option (String × List Char)
  | none => none
  | some (s, rest) => some (String.mk (ch :: s.data), rest)

/-- Parses the remainder of a JSON string literal after the opening quote,
returning the decoded string and the rest of the input.  The grammar is that
of JSON.parse: a raw control character (below 0x20) is rejected, the eight
simple escapes and the four-hex-digit unicode escape are decoded, and a valid
surrogate-pair escape sequence decodes to the astral code point.  A lone
surrogate escape, which JSON.parse accepts as an unpaired UTF-16 unit no Lean
string can hold, decodes to the replacement character: the acceptance
behaviour is exact, only the character identity of that untypable code unit
is approximated.  The fuel argument falls by one per decoded character and at
least one input character is consumed per step, so input length plus one is
always enough fuel. -/
def parseStrAux : Nat → List Char → Option (String × List Char)
  | 0, _ => none
  | _ + 1, [] => none
  | fuel + 1, c :: cs =>
    if c = '"' then some ("", cs)
    else if c = '\\' then
      match cs with
      | 'u' :: h₁ :: h₂ :: h₃ :: h₄ :: cs₃ =>
        (match hexVal h₁, hexVal h₂, hexVal h₃, hexVal h₄ with
         | some a, some b, some d, some g =>
           let code := ((a * 16 + b) * 16 + d) * 16 + g
           if 55296 ≤ code ∧ code ≤ 56319 then
             match cs₃ with
             | '\\' :: 'u' :: k₁ :: k₂ :: k₃ :: k₄ :: cs₄ =>
               (match hexVal k₁, hexVal k₂, hexVal k₃, hexVal k₄ with
                | some a₂, some b₂, some d₂, some g₂ =>
                  let code₂ := ((a₂ * 16 + b₂) * 16 + d₂) * 16 + g₂
                  if 56320 ≤ code₂ ∧ code₂ ≤ 57343 then
                    strCons
                      (Char.ofNat (65536 + (code - 55296) * 1024 + (code₂ - 56320)))
                      (parseStrAux fuel cs₄)
                  else strCons (Char.ofNat 65533) (parseStrAux fuel cs₃)
                | _, _, _, _ => strCons (Char.ofNat 65533) (parseStrAux fuel cs₃))
             | _ => strCons (Char.ofNat 65533) (parseStrAux fuel cs₃)
           else if 56320 ≤ code ∧ code ≤ 57343 then
             strCons (Char.ofNat 65533) (parseStrAux fuel cs₃)
           else strCons (Char.ofNat code) (parseStrAux fuel cs₃)
         | _, _, _, _ => none)
      | e :: cs₂ =>
        let esc : Option Char :=
          if e = '"' then some '"'
          else if e = '\\' then some '\\'
          else if e = '/' then some '/'
          else if e = 'n' then some '\n'
          else if e = 't' then some '\t'
          else if e = 'r' then some '\r'
          else if e = 'b' then some (Char.ofNat 8)
          else if e = 'f' then some (Char.ofNat 12)
          else none
        match esc with
        | none => none
        | some ch => strCons ch (parseStrAux fuel cs₂)
      | [] => none
    else if c.toNat < 32 then none
    else strCons c (parseStrAux fuel cs)

/-- Parses a JSON string literal body with enough fuel for its length. -/
def parseStr (cs : List Char) : Option (String × List Char) :=
  parseStrAux (cs.length + 1) cs

/-- Consumes a digit run, folding it onto the accumulator. -/
def parseDigitsAux : Nat → List Char → (Nat × List Char)
  | acc, [] => (acc, [])
  | acc, c :: cs =>
    if c.isDigit then parseDigitsAux (acc * 10 + (c.toNat - 48)) cs else (acc, c :: cs)

/-- Parses a nonempty digit run into a natural number. -/
def parseDigits : List Char → Option (Nat × List Char)
  | [] => none
  | c :: cs => if c.isDigit then some (parseDigitsAux (c.toNat - 48) cs) else none

/-- Consumes a digit run, folding value and digit count. -/
def digitsCntAux : Nat → Nat → List Char → (Nat × Nat × List Char)
  | acc, len, [] => (acc, len, [])
  | acc, len, c :: cs =>
    if c.isDigit then digitsCntAux (acc * 10 + (c.toNat - 48)) (len + 1) cs
    else (acc, len, c :: cs)

/-- Integer part of a JSON number: a single 0, or a nonzero digit followed by
a digit run; leading zeros are rejected, as JSON.parse rejects them. -/
def parseIntPart : List Char → Option (Nat × List Char)
  | [] => none
  | c :: cs =>
    if c = '0' then some (0, cs)
    else if c.isDigit then some (parseDigitsAux (c.toNat - 48) cs) else none

/-- Optional fraction part: a point must be followed by at least one digit;
absent otherwise.  Returns the fraction value, its digit count and the
rest. -/
def parseFracPart : List Char → Option (Nat × Nat × List Char)
  | '.' :: c :: cs =>
    if c.isDigit then some (digitsCntAux (c.toNat - 48) 1 cs) else none
  | cs => some (0, 0, cs)

/-- Optional exponent part: e or E, an optional sign, then at least one
digit. -/
def parseExpPart : List Char → Option (Int × List Char)
  | c :: cs =>
    if c = 'e' ∨ c = 'E' then
      match cs with
      | '+' :: ds =>
        (match parseDigits ds with
         | some (n, r) => some ((n : Int), r)
         | none => none)
      | '-' :: ds =>
        (match parseDigits ds with
         | some (n, r) => some (-(n : Int), r)
         | none => none)
      | ds =>
        match parseDigits ds with
        | some (n, r) => some ((n : Int), r)
        | none => none
    else some (0, c :: cs)
  | [] => some (0, [])

/-- Exact rational value of a decimal literal: sign, integer part, fraction
digits and exponent. -/
def decToRat (neg : Bool) (ip fv fl : Nat) (ex : Int) : Rat :=
  let m : Int := (if neg then -1 else 1) * ((ip * 10 ^ fl + fv : Nat) : Int)
  let p : Int := ex - (fl : Int)
  if 0 ≤ p then ((m * 10 ^ p.toNat : Int) : Rat)
  else mkRat m (10 ^ (-p).toNat)

/-- Parses a JSON number after an optional leading minus sign, per the
JSON.parse grammar. -/
def parseNumber (neg : Bool) (cs : List Char) : Option (Rat × List Char) :=
  match parseIntPart cs with
  | none => none
  | some (ip, r₁) =>
    match parseFracPart r₁ with
    | none => none
    | some (fv, fl, r₂) =>
      match parseExpPart r₂ with
      | none => none
      | some (ex, r₃) => some (decToRat neg ip fv fl ex, r₃)

mutual

/-- Parses one JSON value.  The fuel argument bounds recursion depth; the
top-level entry point supplies enough fuel for any input of the given size. -/
def parseVal : Nat → List Char → Option (Json × List Char)
  | 0, _ => none
  | fuel + 1, cs =>
    match skipWs cs with
    | [] => none
    | c :: rest =>
      if c = '"' then
        match parseStr rest with
        | some (s, r) => some (.str s, r)
        | none => none
      else if c = 'n' then
        match rest with
        | 'u' :: 'l' :: 'l' :: r => some (.null, r)
        | _ => none
      else if c = 't' then
        match rest with
        | 'r' :: 'u' :: 'e' :: r => some (.bool true, r)
        | _ => none
      else if c = 'f' then
        match rest with
        | 'a' :: 'l' :: 's' :: 'e' :: r => some (.bool false, r)
        | _ => none
      else if c = '-' then
        match parseNumber true rest with
        | some (q, r) => some (.num q, r)
        | none => none
      else if c.isDigit then
        match parseNumber false (c :: rest) with
        | some (q, r) => some (.num q, r)
        | none => none
      else if c = '[' then
        match skipWs rest with
        | ']' :: r => some (.arr [], r)
        | r => parseArrItems fuel r []
      else if c = lbrace then
        match skipWs rest with
        | r =>
          if r.headD ' ' = rbrace then some (.obj [], r.tail)
          else parseObjItems fuel r []
    else none

/-- Parses the items of a nonempty JSON array, accumulating in reverse. -/
def parseArrItems : Nat → List Char → List Json → Option (Json × List Char)
  | 0, _, _ => none
  | fuel + 1, cs, acc =>
    match parseVal fuel cs with
    | none => none
    | some (v, r) =>
      match skipWs r with
      | ',' :: r₂ => parseArrItems fuel r₂ (v :: acc)
      | ']' :: r₂ => some (.arr (v :: acc).reverse, r₂)
      | _ => none

/-- Parses the members of a nonempty JSON object, accumulating in order.  A
repeated key overwrites the value at the key's first position, as property
definition does on the object JSON.parse builds. -/
def parseObjItems : Nat → List Char → List (String × Json) → Option (Json × List Char)
  | 0, _, _ => none
  | fuel + 1, cs, acc =>
    match skipWs cs with
    | '"' :: r =>
      match parseStr r with
      | none => none
      | some (k, r₂) =>
        match skipWs r₂ with
        | ':' :: r₃ =>
          match parseVal fuel r₃ with
          | none => none
          | some (v, r₄) =>
            match skipWs r₄ with
            | ',' :: r₅ => parseObjItems fuel r₅ (setAssoc acc k v)
            | r₅ =>
              if r₅.headD ' ' = rbrace then some (.obj (setAssoc acc k v), r₅.tail)
              else none
        | _ => none
    | _ => none

end

/-- Total stand-in for the JSON.parse builtin: none models a thrown
SyntaxError.  Trailing garbage is rejected, as JSON.parse rejects it. -/
def Json.parse (s : String) : Option Json :=
  match parseVal (2 * s.length + 8) s.data with
  | some (j, rest) => if skipWs rest = [] then some j else none
  | none => none

/-! ## Json object helpers (JS property access on a config object) -/

/-- Reads a property of a JSON-derived value; none models undefined. -/
def jsGetField : Json → String → Option Json
  | .obj kvs, k => lookupAssoc kvs k
  | _, _ => none

/-- Writes a property of a JSON-derived value.  Property writes on non-object
values (in particular on arrays) are not reflected in the model; no claim
consults a field of an array config. -/
def jsSetField : Json → String → Json → Json
  | .obj kvs, k, v => .obj (setAssoc kvs k v)
  | j, _, _ => j

/-- Truthiness of a possibly missing property. -/
def jsFieldTruthy (cfg : Json) (k : String) : Bool :=
  match jsGetField cfg k with
  | some v => jsTruthy v
  | none => false

/-! ## Config resolver (getOptimisticConfig, from config.js) -/

/-- Fills the defaults into a parsed config object, mirroring the tail of
getOptimisticConfig: delay defaults to 2000 under the JS nullish-coalescing
operator, errorMode and errorMessage default under JS truthiness, and a
button element without explicit optimistic content receives a synthesized
values entry appending the pending class to its class string. -/
def applyConfigDefaults (tagName className : String) (cfg : Json) : Json :=
  let delayV :=
    match jsGetField cfg "delay" with
    | none => Json.num 2000
    | some .null => Json.num 2000
    | some v => v
  let cfg₁ := jsSetField cfg "delay" delayV
  let emV :=
    match jsGetField cfg₁ "errorMode" with
    | some v => if jsTruthy v then v else Json.str "replace"
    | none => Json.str "replace"
  let cfg₂ := jsSetField cfg₁ "errorMode" emV
  let msgV :=
    match jsGetField cfg₂ "errorMessage" with
    | some v => if jsTruthy v then v else Json.str "Request failed"
    | none => Json.str "Request failed"
  let cfg₃ := jsSetField cfg₂ "errorMessage" msgV
  if jsFieldTruthy cfg₃ "values" = false ∧ jsFieldTruthy cfg₃ "template" = false
      ∧ tagName = "BUTTON" then
    jsSetField cfg₃ "values"
      (Json.obj [("className", Json.str ((className ++ " hx-optimistic-pending").trim))])
  else cfg₃

/-- Embeds getOptimisticConfig from config.js.  The raw argument is the value
of the declarative data-optimistic attribute (none when absent).  The guard
on the first line of the source tests JS truthiness of the dataset entry, so
an empty attribute value returns null exactly like an absent attribute; the
later raw === empty-string disjunct is therefore unreachable.  The WeakMap
cache is omitted: memoization does not change the record returned for a fixed
raw value, and no claim concerns the cache. -/
def getOptimisticConfig (tagName className : String) (raw : Option String) : Option Json :=
  match raw with
  | none => none
  | some r =>
    if r = "" then none
    else
      let base : Json :=
        if r = "true" ∨ r = "" then Json.obj []
        else
          match Json.parse r with
          | some j =>
            if jsIsObjectType j then j
            else Json.obj [("values", Json.obj [("textContent", Json.str r)])]
          | none => Json.obj [("values", Json.obj [("textContent", Json.str r)])]
      some (applyConfigDefaults tagName className base)

/-- Reads config.delay for the comparison config.delay > 0 in handleError.
Only numeric delays compare greater than zero in the model; the JS coercion
of numeric strings is not modelled (no claim uses a string delay). -/
def cfgDelayPos (cfg : Json) : Bool :=
  match jsGetField cfg "delay" with
  | some (.num n) => 0 < n
  | _ => false

/-- Reads the delay value scheduled with setTimeout. -/
def cfgDelayVal (cfg : Json) : Option Json :=
  jsGetField cfg "delay"

/-- Tests config.errorMode === append. -/
def cfgErrorModeAppend (cfg : Json) : Bool :=
  match jsGetField cfg "errorMode" with
  | some (.str s) => s = "append"
  | _ => false

/-! ## Interpolator (interpolateTemplate, from utils.js) -/

/-- Form control reachable by querySelector from a form source element, in
document order.  The ftype field is the type attribute (none when absent). -/
structure Field where
  tag : String
  ftype : Option String
  fname : Option String
  value : String
deriving DecidableEq, Inhabited

/-- Interpolation view of a source element: the pieces of element state the
interpolator reads.  The value field is none when the element has no value
property (a plain div), and fields lists the form controls among the
descendants when the element is a form. -/
structure SrcElt where
  tagName : String
  value : Option String
  textContent : String
  dataset : List (String × String)
  attrs : List (String × String)
  fields : List Field
deriving DecidableEq, Inhabited

/-- Scanner output: literal text interleaved with matched placeholders.  A
ph piece carries the raw expression text between the braces (nonempty, free
of closing braces), exactly the capture of the template regex. -/
inductive Piece where
  | lit (s : String)
  | ph (expr : String)
deriving DecidableEq, Inhabited

/-- Takes characters up to the first closing brace; none when no closing
brace follows.  Mirrors the bounded capture of the template regex. -/
def takeToRbrace : List Char → Option (List Char × List Char)
  | [] => none
  | c :: cs =>
    if c = rbrace then some ([], cs)
    else
      match takeToRbrace cs with
      | none => none
      | some (e, r) => some (c :: e, r)

/-- Fuel-bounded scanner loop; the fuel falls by one per emitted piece while
at least one character is consumed, so list length plus one is always enough
fuel. -/
def scanPiecesF : Nat → List Char → List Piece
  | 0, _ => []
  | _ + 1, [] => []
  | fuel + 1, c :: cs =>
    if c = '$' then
      match cs with
      | [] => [.lit (String.mk [c])]
      | c₂ :: cs₂ =>
        if c₂ = lbrace then
          match takeToRbrace cs₂ with
          | some (e, r) =>
            if e = [] then .lit (String.mk [c]) :: scanPiecesF fuel (c₂ :: cs₂)
            else .ph (String.mk e) :: scanPiecesF fuel r
          | none => .lit (String.mk [c]) :: scanPiecesF fuel (c₂ :: cs₂)
        else .lit (String.mk [c]) :: scanPiecesF fuel (c₂ :: cs₂)
    else .lit (String.mk [c]) :: scanPiecesF fuel cs

/-- Scans a template for the non-overlapping matches of the placeholder
regex, in left-to-right order.  A dollar-brace pair with no closing brace, or
with an empty capture, contributes literal text, as the regex does not match
there. -/
def scanPieces (l : List Char) : List Piece :=
  scanPiecesF (l.length + 1) l

/-- Outcome of the per-occurrence resolution rules. -/
inductive ExprOutcome where
  | replaced (v : String)
  | keptQuiet
  | unmatched
deriving DecidableEq, Inhabited

/-- First form field matched by the type-alias selector table, or by the
name-attribute selector for any other expression.  Mirrors the selectors map
of interpolateTemplate; the name lookup is restricted to the listed form
controls (querySelector would also see other named descendants, which the
model does not represent). -/
def findFormField (fields : List Field) (expr : String) : Option Field :=
  if expr = "textarea" then fields.find? (fun f => f.tag = "textarea")
  else if expr = "email" then fields.find? (fun f => f.tag = "input" ∧ f.ftype = some "email")
  else if expr = "password" then fields.find? (fun f => f.tag = "input" ∧ f.ftype = some "password")
  else if expr = "text" then
    fields.find? (fun f => f.tag = "input" ∧ (f.ftype = some "text" ∨ f.ftype = none))
  else if expr = "url" then fields.find? (fun f => f.tag = "input" ∧ f.ftype = some "url")
  else if expr = "tel" then fields.find? (fun f => f.tag = "input" ∧ f.ftype = some "tel")
  else if expr = "search" then fields.find? (fun f => f.tag = "input" ∧ f.ftype = some "search")
  else fields.find? (fun f => f.fname = some expr)

/-- Kebab-case to camelCase conversion of the data: shorthand key: each dash
followed by a lowercase letter becomes that letter uppercased. -/
def camelize : List Char → List Char
  | [] => []
  | '-' :: c :: cs => if c.isLower then c.toUpper :: camelize cs else '-' :: camelize (c :: cs)
  | c :: cs => c :: camelize cs

/-- Resolution of one (already trimmed) placeholder expression, rule by rule
in source order.  replaced v means a rule returned the substitution v;
keptQuiet means a rule returned the original match text, which skips the
diagnostic at the bottom of the function; unmatched means every rule fell
through to the final return, where the diagnostic may fire. -/
def resolveExpr (src : Option SrcElt) (data : List (String × Json)) (expr : String) :
    ExprOutcome :=
  match lookupAssoc data expr with
  | some v => .replaced (jsToDOMString v)
  | none =>
    match src with
    | none => .keptQuiet
    | some s =>
      -- this.value: a defined value property is returned even when empty;
      -- the form fallback falls through on a missing or empty first control.
      match (if expr = "this.value" then
               match s.value with
               | some v => some (ExprOutcome.replaced v)
               | none =>
                 if s.tagName = "FORM" then
                   match s.fields.head? with
                   | some f => if f.value ≠ "" then some (.replaced f.value) else none
                   | none => none
                 else none
             else none) with
      | some out => out
      | none =>
        -- form field lookup by type alias or name
        match (if s.tagName = "FORM" then
                 match findFormField s.fields expr with
                 | some f => if f.value ≠ "" then some (ExprOutcome.replaced f.value) else none
                 | none => none
               else none) with
        | some out => out
        | none =>
          if expr = "this.textContent" then
            if s.textContent ≠ "" then .replaced s.textContent else .keptQuiet
          else if (String.mk (expr.data.take 13)) = "this.dataset." then
            match lookupAssoc s.dataset (String.mk (expr.data.drop 13)) with
            | some v => if v ≠ "" then .replaced v else .keptQuiet
            | none => .keptQuiet
          else if (String.mk (expr.data.take 5)) = "data:" then
            match lookupAssoc s.dataset (String.mk (camelize (expr.data.drop 5))) with
            | some v => if v ≠ "" then .replaced v else .keptQuiet
            | none => .keptQuiet
          else if (String.mk (expr.data.take 5)) = "attr:" then
            match lookupAssoc s.attrs (String.mk (expr.data.drop 5)) with
            | some v => if v ≠ "" then .replaced v else .keptQuiet
            | none => .keptQuiet
          else .unmatched

/-- Literal text of a placeholder occurrence, dollar and braces included. -/
def phLiteral (e : String) : String :=
  String.mk ('$' :: lbrace :: e.data ++ [rbrace])

/-- Outcome of a raw (untrimmed) placeholder occurrence. -/
def phOutcome (src : Option SrcElt) (data : List (String × Json)) (e : String) :
    ExprOutcome :=
  resolveExpr src data (strTrim e)

/-- Whether the diagnostic fires for a raw placeholder occurrence: only when
every rule fell through and the trimmed expression contains a dot or colon. -/
def warnsPh (src : Option SrcElt) (data : List (String × Json)) (e : String) : Bool :=
  phOutcome src data e = .unmatched
    && (strContains (strTrim e) '.' || strContains (strTrim e) ':')

/-- Rendering of one scanned piece into output text. -/
def renderPiece (src : Option SrcElt) (data : List (String × Json)) : Piece → String
  | .lit s => s
  | .ph e =>
    match phOutcome src data e with
    | .replaced v => v
    | _ => phLiteral e

/-- Embeds interpolateTemplate from utils.js, for a string template.  The
first component is the returned string; the second lists the trimmed
expressions for which the developer diagnostic fired, in occurrence order
(console.warn is a side effect in the source, made explicit here). -/
def interpolateTemplate (s : String) (src : Option SrcElt)
    (data : List (String × Json)) : String × List String :=
  let ps := scanPieces s.data
  (String.join (ps.map (renderPiece src data)),
   ps.filterMap (fun p =>
     match p with
     | .ph e => if warnsPh src data e then some (strTrim e) else none
     | .lit _ => none))

/-- Embeds the typeof guard of interpolateTemplate: a non-string value is
returned unchanged. -/
def interpolateJsonValue (v : Json) (src : Option SrcElt)
    (data : List (String × Json)) : Json :=
  match v with
  | .str s => .str (interpolateTemplate s src data).1
  | other => other

/-- Embeds Object.assign, as used to merge the config context with the error
detail overlay. -/
def mergeAssign (base overrides : List (String × Json)) : List (String × Json) :=
  overrides.foldl (fun acc p => setAssoc acc p.1 p.2) base

/-- One document node. -/
structure DocNode where
  nid : Nat
  parent : Option Nat
  tag : String
  classes : List String
deriving DecidableEq, Inhabited

/-- A document: nodes listed in document (pre-)order. -/
structure Doc where
  nodes : List DocNode
deriving DecidableEq, Inhabited

/-- Node lookup by id. -/
def findNode (d : Doc) (i : Nat) : Option DocNode :=
  d.nodes.find? (fun n => n.nid = i)

/-- Model of Element.matches for the simple selectors exercised: a leading
dot matches a class token, anything else matches the tag name. -/
def matchesSel (n : DocNode) (sel : String) : Bool :=
  if strStartsWith sel "." then (String.mk (sel.data.drop 1)) ∈ n.classes
  else sel ≠ "" ∧ n.tag = sel

/-- Ancestor chain of a node (nearest first), fuel-bounded by document size. -/
def ancestorChain (d : Doc) : Nat → Nat → List Nat
  | 0, _ => []
  | fuel + 1, i =>
    match findNode d i with
    | none => []
    | some n =>
      match n.parent with
      | none => []
      | some p => p :: ancestorChain d fuel p

/-- Ancestors of a node, nearest first. -/
def ancestorsOf (d : Doc) (i : Nat) : List Nat :=
  ancestorChain d d.nodes.length i

/-- Strict descendant test through the parent chain. -/
def isDescendantOf (d : Doc) (i anc : Nat) : Bool :=
  anc ∈ ancestorsOf d i

/-- Model of context.querySelector(sel): first strict descendant of the
context in document order that matches. -/
def querySelectorIn (d : Doc) (ctx : Nat) (sel : String) : Option Nat :=
  (d.nodes.find? (fun n => isDescendantOf d n.nid ctx ∧ matchesSel n sel)).map (·.nid)

/-- Model of document.querySelector(sel): first matching node in document
order. -/
def docQuerySelector (d : Doc) (sel : String) : Option Nat :=
  (d.nodes.find? (fun n => matchesSel n sel)).map (·.nid)

/-- Model of Element.closest(sel): nearest self-or-ancestor match. -/
def closestFrom (d : Doc) (i : Nat) (sel : String) : Option Nat :=
  ((i :: ancestorsOf d i).find? (fun a =>
    match findNode d a with
    | some n => matchesSel n sel
    | none => false))

/-- Embeds findClosestInAncestorSubtrees from utils.js: search the subtree of
the start node, then of each ancestor in turn. -/
def findClosestInAncestorSubtrees (d : Doc) (startElt : Nat) (sel : String) : Option Nat :=
  match querySelectorIn d startElt sel with
  | some m => some m
  | none =>
    (ancestorsOf d startElt).foldl
      (fun acc a => match acc with
        | some m => some m
        | none => querySelectorIn d a sel) none

/-- Siblings of a node: the children of its parent, in document order. -/
def siblingList (d : Doc) (i : Nat) : List Nat :=
  match findNode d i with
  | none => []
  | some n =>
    match n.parent with
    | none => []
    | some p => (d.nodes.filter (fun m => m.parent = some p)).map (·.nid)

/-- Scan forward through following siblings for the first match: the next
branch of resolveTargetChain. -/
def nextSibScan (d : Doc) (i : Nat) (sel : String) : Option Nat :=
  let sibs := siblingList d i
  let after := (sibs.dropWhile (fun x => x ≠ i)).drop 1
  after.find? (fun x =>
    match findNode d x with
    | some n => matchesSel n sel
    | none => false)

/-- Scan backward through preceding siblings for the first match: the
previous branch of resolveTargetChain. -/
def prevSibScan (d : Doc) (i : Nat) (sel : String) : Option Nat :=
  let sibs := siblingList d i
  let before := (sibs.takeWhile (fun x => x ≠ i)).reverse
  before.find? (fun x =>
    match findNode d x with
    | some n => matchesSel n sel
    | none => false)

/-- One combinator step of the chain walk, in source order: closest with the
ancestor-subtree fallback, find with the upward-walking fallback, next,
previous; any other operator terminates the chain with null. -/
def chainStep (d : Doc) (ctx : Nat) (op sel : String) : Option Nat :=
  if op = "closest" then
    match closestFrom d ctx sel with
    | some m => some m
    | none => findClosestInAncestorSubtrees d ctx sel
  else if op = "find" then
    match querySelectorIn d ctx sel with
    | some m => some m
    | none =>
      (ancestorsOf d ctx).foldl
        (fun acc a => match acc with
          | some m => some m
          | none => querySelectorIn d a sel) none
  else if op = "next" then nextSibScan d ctx sel
  else if op = "previous" then prevSibScan d ctx sel
  else none

/-- The chain loop of resolveTargetChain: operators and selector arguments
are consumed in pairs, each step rebinding the context; a failed or unknown
step yields null.  A trailing operator without selector argument runs its
step with the empty selector and ends the loop. -/
def chainLoop (d : Doc) : Nat → List String → Option Nat
  | ctx, [] => some ctx
  | ctx, [op] => chainStep d ctx op ""
  | ctx, op :: sel :: rest =>
    match chainStep d ctx op sel with
    | none => none
    | some c => chainLoop d c rest

/-- The four combinator keywords. -/
def chainKeywords : List String := ["closest", "find", "next", "previous"]

/-- The chain-mode test of resolveTargetChain: the trimmed selector string
starts (as a string prefix) with one of the keywords. -/
def startsWithAnyKeyword (s : String) : Bool :=
  chainKeywords.any (fun k => strStartsWith s k)

/-- Embeds resolveTargetChain from utils.js.  A falsy (empty) selector or the
literal self-marker returns the source element; a selector in chain mode is
tokenized on whitespace and walked pairwise; anything else is a plain global
document query. -/
def resolveTargetChain (d : Doc) (src : Nat) (targetSelector : String) : Option Nat :=
  if targetSelector = "" ∨ targetSelector = "this" then some src
  else
    let selector := strTrim targetSelector
    let ops := splitWs selector
    if startsWithAnyKeyword selector then chainLoop d src ops
    else docQuerySelector d selector

/-! ## Update engine (createExtension, from src/src/extension.js)

Element state is split into: child content (a list of items whose
serialization is the innerHTML string), the class string, the dataset (keys
in camelCase, values as strings), the remaining attributes (neither class nor
data-*, which are reflections of the previous two), and plain JS properties.
Content items record how content was produced: raw markup assigned through
innerHTML or insertAdjacentHTML, text assigned through textContent, or an
engine-appended error-message node.  The cleanup query for error-message
nodes removes the error items; error-message elements hidden inside opaque
raw markup are outside the model.

The engine functions are specialized to the configuration the claims
exercise: the triggering element is its own target (no hx-target attribute),
so the target resolution at the top of handleBeforeRequest and handleError
resolves to the single tracked element, and the trigger-to-target link in the
sourceTargets WeakMap links the element to itself.  The template lookup by
id, and the resolution of an alternate optimistic target selector, enter as
oracle parameters (their own behavior is verified on the document model
above).  Event dispatch (htmx.trigger) and htmx.process are external calls
without engine-visible effects and are not modelled. -/

/-- One child content item of the tracked element. -/
inductive Item where
  | raw (s : String)
  | text (s : String)
  | errorMsg (html : Bool) (content : String)
deriving DecidableEq, Inhabited

/-- Minimal HTML escaping used when a text assignment is serialized back
through innerHTML. -/
def escapeHtml (s : String) : String :=
  String.mk (s.data.foldr
    (fun c acc =>
      (if c = '&' then "&amp;".data
       else if c = '<' then "&lt;".data
       else if c = '>' then "&gt;".data
       else [c]) ++ acc) [])

/-- Serialization of one content item, as innerHTML would report it. -/
def serializeItem : Item → String
  | .raw s => s
  | .text s => escapeHtml s
  | .errorMsg html c =>
    "<div class=\"hx-optimistic-error-message\">"
      ++ (if html then c else escapeHtml c) ++ "</div>"

/-- Tests for an engine-appended error-message node. -/
def isErrorMsgItem : Item → Bool
  | .errorMsg _ _ => true
  | _ => false

/-- Visible state of the tracked element. -/
structure EltState where
  content : List Item
  className : String
  dataset : List (String × String)
  attrs : List (String × String)
  props : List (String × Json)

/-- The innerHTML string of the element. -/
def innerHTMLOf (t : EltState) : String :=
  String.join (t.content.map serializeItem)

/-- The three engine state classes. -/
def stateClassList : List String :=
  ["hx-optimistic", "hx-optimistic-error", "hx-optimistic-reverting"]

/-- Embeds setOptimisticStateClass from utils.js: remove all three state
classes, then add the one the requested state names (clean adds none). -/
def setOptimisticStateClass (cls : String) (state : String) : String :=
  let removed := classListRemove cls stateClassList
  if state = "optimistic" then classListAdd removed "hx-optimistic"
  else if state = "error" then classListAdd removed "hx-optimistic-error"
  else if state = "reverting" then classListAdd removed "hx-optimistic-reverting"
  else removed

/-- Embeds addCustomOptimisticClass from utils.js. -/
def addCustomOptimisticClass (cls : String) (cfg : Json) : String :=
  match jsGetField cfg "class" with
  | some v => if jsTruthy v then classListAdd cls (jsToDOMString v) else cls
  | none => cls

/-- Embeds removeCustomOptimisticClass from utils.js. -/
def removeCustomOptimisticClass (cls : String) (cfg : Json) : String :=
  match jsGetField cfg "class" with
  | some v => if jsTruthy v then classListRemove cls [jsToDOMString v] else cls
  | none => cls

/-- Tests for an engine bookkeeping dataset key (the hxOptimistic camelCase
namespace, reflecting data-hx-optimistic-* attributes). -/
def isHxOptimisticKey (k : String) : Bool :=
  strStartsWith k "hxOptimistic"

/-- Snapshot record stored in the snapshots WeakMap.  Fields are optional
because the focus-capture path of handleError can create a partial record
holding only config and token; the snapshot taken by handleBeforeRequest
fills every field.  The source captures the full attribute list (class and
data-* included); on the split element state the class and data-* parts
coincide with the captured className and dataset fields, so the attributes
field holds the remaining attributes.  The granular sub-capture guided by
config.snapshot is taken by the source but never consulted by revert or
cleanup, hence not modelled. -/
structure Snapshot where
  innerHTML : Option String
  className : Option String
  attributes : Option (List (String × String))
  dataset : Option (List (String × String))
  config : Json
  token : Option Nat
  focusRestore : Option Unit

/-- Engine-private stores plus the tracked element, as created by
createExtension: the snapshots, tokens and sourceTargets WeakMaps restricted
to the single tracked element. -/
structure Engine where
  target : EltState
  snapshots : Option Snapshot
  tokens : Option Nat
  sourceTargets : Bool

/-- Embeds getNextToken from utils.js (get-or-zero, increment, store). -/
def getNextToken (tokens : Option Nat) : Nat :=
  tokens.getD 0 + 1

/-- Embeds the snapshot method of the extension (minus the granular
sub-capture, which nothing reads back). -/
def snapshotFn (t : EltState) (cfg : Json) (tok : Nat) : Snapshot :=
  { innerHTML := some (innerHTMLOf t)
    className := some t.className
    attributes := some t.attrs
    dataset := some t.dataset
    config := cfg
    token := some tok
    focusRestore := none }

/-- Embeds getTemplate: a # reference is looked up in the document (the
oracle returns the template innerHTML, none when unresolved), anything else
is an inline template string. -/
def getTemplate (lookupTmpl : String → Option String) (templateId : String) : Option String :=
  if strStartsWith templateId "#" then lookupTmpl templateId else some templateId

/-- Context map of a config, as read by applyOptimistic and showError.  A
null context would make the source throw inside interpolateTemplate and an
array context resolves (numeric) index keys only; neither is modelled. -/
def contextEntries (cfg : Json) : List (String × Json) :=
  match jsGetField cfg "context" with
  | some (.obj kvs) => kvs
  | _ => []

/-- One entry of applyValues: the value is interpolated and dispatched on the
key (textContent, innerHTML, className, data-*, or a plain property write).
The plain write lands in the props field: DOM attribute reflection, by which
a built-in reflected property (id, title, ...) also mutates the visible
attribute set, is outside the model, so the bookkeeping theorems restrict
their configs to the content and class channels. -/
def applyValueEntry (src : Option SrcElt) (acc : EltState) (kv : String × Json) :
    EltState :=
  let evaluated := interpolateJsonValue kv.2 src []
  if kv.1 = "textContent" then { acc with content := [.text (jsToDOMString evaluated)] }
  else if kv.1 = "innerHTML" then { acc with content := [.raw (jsToDOMString evaluated)] }
  else if kv.1 = "className" then { acc with className := jsToDOMString evaluated }
  else if String.mk (kv.1.data.take 5) = "data-" then
    { acc with dataset := setAssoc acc.dataset (String.mk (kv.1.data.drop 5)) (jsToDOMString evaluated) }
  else { acc with props := setAssoc acc.props kv.1 evaluated }

/-- Embeds applyValues from the extension. -/
def applyValues (t : EltState) (values : List (String × Json)) (src : Option SrcElt) :
    EltState :=
  values.foldl (applyValueEntry src) t

/-- The else-branch of applyOptimistic content application: the configured
values map applied entrywise (a truthy non-object values field would make the
source iterate spurious entries; only the object form is modelled). -/
def applyValuesBranch (src : Option SrcElt) (cfg : Json) (x : EltState) :
    EltState × List String :=
  match jsGetField cfg "values" with
  | some (.obj kvs) => (applyValues x kvs src, [])
  | _ => (x, [])

/-- Content-application part of applyOptimistic, acting on whichever element
was chosen as the optimistic target: template rendering inserted per the swap
mode, or value application.  The second component lists the developer
diagnostics emitted (the unresolved-template warning). -/
def applyContent (lookupTmpl : String → Option String) (src : Option SrcElt)
    (cfg : Json) (x : EltState) : EltState × List String :=
  let valuesBranch : EltState × List String := applyValuesBranch src cfg x
  match jsGetField cfg "template" with
  | some tv =>
    if jsTruthy tv then
      match tv with
      | .str tid =>
        match getTemplate lookupTmpl tid with
        | some template =>
          let content := (interpolateTemplate template src (contextEntries cfg)).1
          match jsGetField cfg "swap" with
          | some (.str "beforeend") => ({ x with content := x.content ++ [.raw content] }, [])
          | some (.str "afterbegin") => ({ x with content := .raw content :: x.content }, [])
          | _ => ({ x with content := [.raw content] }, [])
        | none =>
          if strStartsWith tid "#" then (x, ["template-not-resolved"]) else (x, [])
      | _ => (x, [])
    else valuesBranch
  | none => valuesBranch

/-- Result of applyOptimistic: the (possibly mutated) primary target, the
(possibly mutated) alternate target when one resolved, and the diagnostics
emitted. -/
structure ApplyResult where
  primary : EltState
  alt : Option EltState
  warns : List String

/-- Embeds applyOptimistic from the extension.  When config.target is truthy
the alternate resolution result enters as the altResolved oracle (the state
of the element resolveTargetChain produced, none when resolution failed);
a failed resolution leaves the primary target as the optimistic target. -/
def applyOptimistic (lookupTmpl : String → Option String) (altResolved : Option EltState)
    (t : EltState) (src : Option SrcElt) (cfg : Json) : ApplyResult :=
  if jsFieldTruthy cfg "target" then
    match altResolved with
    | some a =>
      let r := applyContent lookupTmpl src cfg a
      { primary := t, alt := some r.1, warns := r.2 }
    | none =>
      let r := applyContent lookupTmpl src cfg t
      { primary := r.1, alt := none, warns := r.2 }
  else
    let r := applyContent lookupTmpl src cfg t
    { primary := r.1, alt := altResolved, warns := r.2 }

/-- Embeds handleBeforeRequest (begin): record the trigger-target link,
allocate the next token, snapshot the pre-mutation target, apply the
optimistic content, set the optimistic state class and any custom class.  A
missing config aborts silently.  The snapshot is taken before any
mutation. -/
def handleBeforeRequest (lookupTmpl : String → Option String)
    (altResolved : Option EltState) (src : Option SrcElt) (cfg : Option Json)
    (e : Engine) : Engine :=
  match cfg with
  | none => e
  | some config =>
    let newToken := getNextToken e.tokens
    let snap := snapshotFn e.target config newToken
    let ar := applyOptimistic lookupTmpl altResolved e.target src config
    let t₁ := ar.primary
    let t₂ := { t₁ with className := setOptimisticStateClass t₁.className "optimistic" }
    let t₃ := { t₂ with className := addCustomOptimisticClass t₂.className config }
    { target := t₃, snapshots := some snap, tokens := some newToken, sourceTargets := true }

/-- Failure detail carried by a failure event, after the JS defaulting of a
missing xhr or error field (status || 0, statusText || Network Error,
error || Request failed). -/
structure FailDetail where
  status : Int
  statusText : String
  error : String

/-- Error-context entries overlaid on the config context for error-template
interpolation. -/
def errDataEntries (fd : FailDetail) : List (String × Json) :=
  [("status", .num (fd.status : Rat)), ("statusText", .str fd.statusText),
   ("error", .str fd.error)]

/-- Embeds showError: a truthy error-shown dataset marker short-circuits;
otherwise the marker is written and the configured error content is rendered
(template through the interpolator with the merged error context, or the
plain message), inserted per errorMode (append as an error-message node,
otherwise replacing the content). -/
def showError (lookupTmpl : String → Option String) (src : Option SrcElt)
    (config : Json) (fd : FailDetail) (t : EltState) : EltState :=
  let shown : Bool :=
    match lookupAssoc t.dataset "hxOptimisticErrorShown" with
    | some v => decide (v ≠ "")
    | none => false
  if shown then t
  else
    let t₁ := { t with dataset := setAssoc t.dataset "hxOptimisticErrorShown" "true" }
    match jsGetField config "errorTemplate" with
    | some tv =>
      if jsTruthy tv then
        match tv with
        | .str tid =>
          match getTemplate lookupTmpl tid with
          | some template =>
            let errorData := mergeAssign (contextEntries config) (errDataEntries fd)
            let content := (interpolateTemplate template src errorData).1
            if cfgErrorModeAppend config then
              { t₁ with content := t₁.content ++ [.errorMsg true content] }
            else { t₁ with content := [.raw content] }
          | none => t₁
        | _ => t₁
      else
        match jsGetField config "errorMessage" with
        | some mv =>
          if jsTruthy mv then
            if cfgErrorModeAppend config then
              { t₁ with content := t₁.content ++ [.errorMsg false (jsToDOMString mv)] }
            else { t₁ with content := [.text (jsToDOMString mv)] }
          else t₁
        | none => t₁
    | none =>
      match jsGetField config "errorMessage" with
      | some mv =>
        if jsTruthy mv then
          if cfgErrorModeAppend config then
            { t₁ with content := t₁.content ++ [.errorMsg false (jsToDOMString mv)] }
          else { t₁ with content := [.text (jsToDOMString mv)] }
        else t₁
      | none => t₁

/-- Embeds handleError (fail).  The element resolves itself as target (see
the section comment).  The config comes from the live snapshot when one
exists, else from re-resolving the trigger (the fallbackCfg argument); the
staleness guard aborts when a snapshot exists whose token differs from the
current token.  The returned second component is the revert scheduled by
setTimeout: the captured current token it will pass, none when the delay is
not greater than zero.  The activeInTarget flag models a focused descendant
of the target (document.activeElement inside the target). -/
def handleError (lookupTmpl : String → Option String) (src : Option SrcElt)
    (fallbackCfg : Option Json) (fd : FailDetail) (activeInTarget : Bool)
    (e : Engine) : Engine × Option (Option Nat) :=
  let snapshot := e.snapshots
  let config? :=
    match snapshot with
    | some s => some s.config
    | none => fallbackCfg
  match config? with
  | none => (e, none)
  | some config =>
    let currentToken := e.tokens
    let stale : Bool :=
      match snapshot with
      | some s => decide (s.token ≠ currentToken)
      | none => false
    if stale then (e, none)
    else
      let snaps₂ :=
        if activeInTarget then
          match snapshot with
          | some s => some { s with focusRestore := some () }
          | none =>
            some { innerHTML := none, className := none, attributes := none,
                   dataset := none, config := config, token := currentToken,
                   focusRestore := some () }
        else snapshot
      let t₁ := { e.target with
        className := setOptimisticStateClass e.target.className "error" }
      let t₂ := showError lookupTmpl src config fd t₁
      let sched := if cfgDelayPos config then some currentToken else none
      ({ e with target := t₂, snapshots := snaps₂ }, sched)

/-- Embeds the cleanup method: set the clean visual state (remove the three
state classes), remove the descendants the error-message class query selects,
strip the hxOptimistic dataset namespace, remove the custom class named by a
live snapshot, delete the snapshot.  The token entry is not deleted here.
The query removal is modelled as dropping the engine error items: on content
whose other items do not mention the reserved class (itemMentionsErrClass,
the side condition the round-trip theorems carry) the query selects exactly
the engine-created nodes, and elements hidden inside raw markup that does
mention it are outside the model. -/
def cleanupE (e : Engine) : Engine :=
  let t₁ := { e.target with className := setOptimisticStateClass e.target.className "clean" }
  let t₂ := { t₁ with content := t₁.content.filter (fun i => isErrorMsgItem i = false) }
  let t₃ := { t₂ with dataset := t₂.dataset.filter (fun p => isHxOptimisticKey p.1 = false) }
  match e.snapshots with
  | some snap =>
    let t₄ :=
      if jsFieldTruthy snap.config "class" then
        { t₃ with className := removeCustomOptimisticClass t₃.className snap.config }
      else t₃
    { e with target := t₄, snapshots := none }
  | none => { e with target := t₃ }

/-- Embeds the revert method: a missing snapshot, or a provided expected
token different from the snapshot token, is a no-op; otherwise the reverting
state class is set, markup, class string, attributes and dataset are restored
from the snapshot, snapshot and token entries are deleted, and cleanup runs.
The attribute restore removes every attribute and re-adds the saved ones; on
the split element state this replaces the remaining attributes with the saved
list (class and data-* being re-established by the className and dataset
restores the source also performs), and a partial snapshot, which saved no
attributes, leaves them all removed. -/
def revertE (e : Engine) (expectedToken : Option Nat) : Engine :=
  match e.snapshots with
  | none => e
  | some snap =>
    if expectedToken ≠ none ∧ snap.token ≠ expectedToken then e
    else
      let t₁ := { e.target with
        className := setOptimisticStateClass e.target.className "reverting" }
      let t₂ :=
        match snap.innerHTML with
        | some h => { t₁ with content := [.raw h] }
        | none => t₁
      let t₃ :=
        match snap.className with
        | some c => { t₂ with className := c }
        | none => t₂
      let t₄ :=
        match snap.attributes with
        | some saved => { t₃ with attrs := saved }
        | none => { t₃ with attrs := [], className := "", dataset := [] }
      let t₅ := { t₄ with dataset := (snap.dataset).getD [] }
      let e₂ : Engine :=
        { target := t₅, snapshots := none, tokens := none, sourceTargets := e.sourceTargets }
      cleanupE e₂

/-- Firing (or not) of the one scheduled revert callback: the only
asynchronous primitive of the engine.  none means nothing was scheduled, so
the passage of time leaves the engine untouched. -/
def fireSchedule (e : Engine) : Option (Option Nat) → Engine
  | none => e
  | some tok => revertE e tok

/-- Deletes a property of a JSON object (used to state that a config with an
unresolvable alternate target behaves like the config without one). -/
def delField : Json → String → Json
  | .obj kvs, k => .obj (delAssoc kvs k)
  | j, _ => j

/-- The values map of a config object, as iterated by applyValues. -/
def cfgValuesEntries (cfg : Json) : List (String × Json) :=
  match jsGetField cfg "values" with
  | some (.obj kvs) => kvs
  | _ => []

/-- A template-lookup oracle with no templates in the document. -/
def noTmpl : String → Option String := fun _ => none

/-- A four-node document: div.card containing a div containing span.title and
a button (the scenario of the specification). -/
def fixDoc : Doc :=
  ⟨[⟨0, none, "div", ["card"]⟩, ⟨1, some 0, "div", []⟩,
    ⟨2, some 1, "span", ["title"]⟩, ⟨3, some 1, "button", []⟩]⟩

/-- A declarative attribute value: simple optimistic text, an error message
and a 50ms revert delay. -/
def rawCfgBasic : String :=
  "\x7b\"values\": \x7b\"textContent\": \"Saving\"\x7d, \"errorMessage\": \"Failed\", \"delay\": 50\x7d"

/-- A failure detail fixture. -/
def fdFix : FailDetail := ⟨500, "Server Error", "Request failed"⟩

/-- A clean pre-state target element. -/
def cleanPre : EltState :=
  { content := [.raw "Save"], className := "btn", dataset := [("uid", "7")],
    attrs := [("id", "b1")], props := [] }

/-- The engine over the clean target before any cycle. -/
def cleanEngine : Engine := ⟨cleanPre, none, none, false⟩

theorem lookupAssoc_setAssoc_self {β : Type} (l : List (String × β)) (k : String) (v : β) :
    lookupAssoc (setAssoc l k v) k = some v := by
  induction l with
  | nil => simp [setAssoc, lookupAssoc]
  | cons p rest ih =>
    by_cases h : p.1 = k
    · simp [setAssoc, lookupAssoc, h]
    · simp [setAssoc, lookupAssoc, h, ih]

theorem setAssoc_of_lookup_none {β : Type} (l : List (String × β)) (k : String) (v : β)
    (h : lookupAssoc l k = none) : setAssoc l k v = l ++ [(k, v)] := by
  induction l with
  | nil => simp [setAssoc]
  | cons p rest ih =>
    by_cases hp : p.1 = k
    · simp [lookupAssoc, hp] at h
    · simp [lookupAssoc, hp] at h
      simp [setAssoc, hp, ih h]

/-! ## Supporting lemmas: whitespace splitting and class tokens -/
/-- A usable class token: nonempty and free of whitespace. -/
def goodTok (t : String) : Prop :=
  t ≠ "" ∧ ∀ c ∈ t.data, nonWs c = true

theorem goodTok_mk_rev (acc : List Char) (h : acc ≠ [])
    (hacc : ∀ c ∈ acc, nonWs c = true) : goodTok (String.mk acc.reverse) := by
  constructor
  · intro h0
    have hd := congrArg String.data h0
    simp at hd
    exact h hd
  · intro x hx
    exact hacc x (by simpa using hx)

theorem wsSplitAcc_all_nonws : ∀ (tok acc : List Char),
    (∀ c ∈ tok, nonWs c = true) → acc.reverse ++ tok ≠ [] →
    wsSplitAcc acc tok = [String.mk (acc.reverse ++ tok)] := by
  intro tok
  induction tok with
  | nil =>
    intro acc _ hne
    have hacc : acc ≠ [] := by
      intro h; exact hne (by simp [h])
    simp [wsSplitAcc, hacc]
  | cons c cs ih =>
    intro acc hws hne
    have hc : nonWs c = true := hws c (by simp)
    have hcw : ¬ (c.isWhitespace = true) := by simp [nonWs] at hc; simp [hc]
    simp only [wsSplitAcc]
    rw [if_neg hcw, ih (c :: acc) (fun x hx => hws x (by simp [hx])) (by simp)]
    simp

theorem wsSplitAcc_token : ∀ (tok rest acc : List Char),
    (∀ c ∈ tok, nonWs c = true) → acc.reverse ++ tok ≠ [] →
    wsSplitAcc acc (tok ++ ' ' :: rest)
      = String.mk (acc.reverse ++ tok) :: wsSplitAcc [] rest := by
  intro tok rest
  induction tok with
  | nil =>
    intro acc _ hne
    have hacc : acc ≠ [] := fun h => hne (by simp [h])
    simp only [List.nil_append, wsSplitAcc]
    rw [if_pos (by decide), if_neg hacc]
    simp
  | cons c cs ih =>
    intro acc hws hne
    have hc : nonWs c = true := hws c (by simp)
    have hcw : ¬ (c.isWhitespace = true) := by simp [nonWs] at hc; simp [hc]
    simp only [List.cons_append, wsSplitAcc]
    rw [if_neg hcw]
    simp only [List.append_eq]
    rw [ih (c :: acc) (fun x hx => hws x (by simp [hx])) (by simp)]
    simp

theorem wsSplit_single (tok : List Char) (hne : tok ≠ [])
    (hws : ∀ c ∈ tok, nonWs c = true) : wsSplit tok = [String.mk tok] := by
  unfold wsSplit
  rw [wsSplitAcc_all_nonws tok [] hws (by simpa using hne)]
  simp

theorem wsSplit_cons_token (tok rest : List Char) (hne : tok ≠ [])
    (hws : ∀ c ∈ tok, nonWs c = true) :
    wsSplit (tok ++ ' ' :: rest) = String.mk tok :: wsSplit rest := by
  unfold wsSplit
  rw [wsSplitAcc_token tok rest [] hws (by simpa using hne)]
  simp

theorem wsSplitAcc_good : ∀ (l acc : List Char), (∀ c ∈ acc, nonWs c = true) →
    ∀ t ∈ wsSplitAcc acc l, goodTok t := by
  intro l
  induction l with
  | nil =>
    intro acc hacc t ht
    simp only [wsSplitAcc] at ht
    by_cases h : acc = []
    · simp [h] at ht
    · rw [if_neg h] at ht
      have := List.mem_singleton.mp ht
      exact this ▸ goodTok_mk_rev acc h hacc
  | cons c cs ih =>
    intro acc hacc t ht
    simp only [wsSplitAcc] at ht
    by_cases hw : c.isWhitespace = true
    · rw [if_pos hw] at ht
      by_cases h : acc = []
      · rw [if_pos h] at ht
        exact ih [] (by simp) t ht
      · rw [if_neg h] at ht
        rcases List.mem_cons.mp ht with h₂ | h₂
        · exact h₂ ▸ goodTok_mk_rev acc h hacc
        · exact ih [] (by simp) t h₂
    · rw [if_neg hw] at ht
      refine ih (c :: acc) ?_ t ht
      intro x hx
      rcases List.mem_cons.mp hx with h₂ | h₂
      · subst h₂; simp [nonWs, hw]
      · exact hacc x h₂

theorem wsSplit_good (l : List Char) : ∀ t ∈ wsSplit l, goodTok t :=
  wsSplitAcc_good l [] (by simp)

theorem mem_dedupAcc : ∀ (l seen : List String) (x : String),
    x ∈ dedupAcc seen l → x ∈ l := by
  intro l
  induction l with
  | nil => intro seen x hx; simp [dedupAcc] at hx
  | cons y ys ih =>
    intro seen x hx
    simp only [dedupAcc] at hx
    by_cases h : y ∈ seen
    · rw [if_pos h] at hx
      exact List.mem_cons.mpr (Or.inr (ih seen x hx))
    · rw [if_neg h] at hx
      rcases List.mem_cons.mp hx with h₂ | h₂
      · simp [h₂]
      · exact List.mem_cons.mpr (Or.inr (ih _ x h₂))

theorem dedupAcc_spec : ∀ (l seen : List String),
    (dedupAcc seen l).Nodup ∧ ∀ x ∈ dedupAcc seen l, x ∉ seen := by
  intro l
  induction l with
  | nil => intro seen; simp [dedupAcc]
  | cons y ys ih =>
    intro seen
    simp only [dedupAcc]
    by_cases h : y ∈ seen
    · rw [if_pos h]; exact ih seen
    · rw [if_neg h]
      obtain ⟨hnd, hmem⟩ := ih (y :: seen)
      refine ⟨List.nodup_cons.mpr ⟨fun hy => (hmem y hy) (by simp), hnd⟩, ?_⟩
      intro x hx
      rcases List.mem_cons.mp hx with h₂ | h₂
      · exact h₂ ▸ h
      · intro hxs
        exact (hmem x h₂) (by simp [hxs])

theorem mem_dedupKeepFirst (l : List String) (x : String) :
    x ∈ dedupKeepFirst l → x ∈ l :=
  mem_dedupAcc l [] x

theorem dedupKeepFirst_nodup (l : List String) : (dedupKeepFirst l).Nodup :=
  (dedupAcc_spec l []).1

theorem dedupAcc_eq_self : ∀ (l seen : List String), l.Nodup → (∀ x ∈ l, x ∉ seen) →
    dedupAcc seen l = l := by
  intro l
  induction l with
  | nil => intro seen _ _; rfl
  | cons y ys ih =>
    intro seen hnd hdis
    simp only [dedupAcc]
    rw [if_neg (hdis y (by simp))]
    congr 1
    apply ih (y :: seen) (List.nodup_cons.mp hnd).2
    intro x hx hmem
    rcases List.mem_cons.mp hmem with h₂ | h₂
    · exact (List.nodup_cons.mp hnd).1 (h₂ ▸ hx)
    · exact hdis x (by simp [hx]) h₂

theorem dedupKeepFirst_eq_self (l : List String) (h : l.Nodup) : dedupKeepFirst l = l :=
  dedupAcc_eq_self l [] h (by simp)

theorem mk_data (s : String) : String.mk s.data = s := by
  cases s; rfl

theorem data_ne_nil (s : String) (h : s ≠ "") : s.data ≠ [] := by
  intro hd
  exact h (String.ext (by simp [hd]))

theorem wsSplit_serialize : ∀ (l : List String), (∀ t ∈ l, goodTok t) →
    wsSplit (serializeTokens l).data = l := by
  intro l
  induction l with
  | nil =>
    intro _
    show wsSplit ("" : String).data = []
    rw [show ("" : String).data = [] from rfl]
    simp [wsSplit, wsSplitAcc]
  | cons t rest ih =>
    intro hg
    have hgt := hg t (by simp)
    cases rest with
    | nil =>
      show wsSplit (serializeTokens [t]).data = [t]
      have h1 : serializeTokens [t] = t := rfl
      rw [h1, wsSplit_single t.data (data_ne_nil t hgt.1) hgt.2, mk_data]
    | cons t₂ rest₂ =>
      have hdata : (serializeTokens (t :: t₂ :: rest₂)).data
          = t.data ++ ' ' :: (serializeTokens (t₂ :: rest₂)).data := by
        show (t ++ " " ++ serializeTokens (t₂ :: rest₂)).data = _
        simp
      rw [hdata,
        wsSplit_cons_token t.data _ (data_ne_nil t hgt.1) hgt.2,
        ih (fun x hx => hg x (by simp [hx])), mk_data]

theorem classTokens_serialize (l : List String) (hg : ∀ t ∈ l, goodTok t)
    (hnd : l.Nodup) : classTokens (serializeTokens l) = l := by
  unfold classTokens splitWs
  rw [wsSplit_serialize l hg, dedupKeepFirst_eq_self l hnd]

theorem classTokens_good (s : String) : ∀ t ∈ classTokens s, goodTok t := by
  intro t ht
  exact wsSplit_good s.data t (mem_dedupKeepFirst _ _ ht)

theorem classTokens_add (s t : String) (hg : goodTok t) :
    classTokens (classListAdd s t)
      = if t ∈ classTokens s then classTokens s else classTokens s ++ [t] := by
  unfold classListAdd
  by_cases hmem : t ∈ classTokens s
  · simp only [hmem, if_true]
    exact classTokens_serialize _ (classTokens_good s) (dedupKeepFirst_nodup _)
  · simp only [hmem, if_false]
    apply classTokens_serialize
    · intro x hx
      rcases List.mem_append.mp hx with hx | hx
      · exact classTokens_good s x hx
      · rw [List.mem_singleton] at hx; exact hx ▸ hg
    · exact List.Nodup.append (dedupKeepFirst_nodup _) (List.nodup_singleton _)
        (fun x hx hx2 => hmem ((List.mem_singleton.mp hx2) ▸ hx))

theorem lookupAssoc_setAssoc_ne {β : Type} (l : List (String × β)) (k k₂ : String)
    (v : β) (h : k₂ ≠ k) : lookupAssoc (setAssoc l k₂ v) k = lookupAssoc l k := by
  induction l with
  | nil => simp [setAssoc, lookupAssoc, h]
  | cons p rest ih =>
    by_cases hp : p.1 = k₂
    · simp [setAssoc, lookupAssoc, hp, h]
    · simp [setAssoc, lookupAssoc, hp, ih]

theorem lookupAssoc_delAssoc_self {β : Type} (l : List (String × β)) (k : String) :
    lookupAssoc (delAssoc l k) k = none := by
  induction l with
  | nil => rfl
  | cons p rest ih =>
    by_cases hp : p.1 = k
    · simpa [delAssoc, hp] using ih
    · simpa [delAssoc, lookupAssoc, hp] using ih

theorem lookupAssoc_delAssoc_ne {β : Type} (l : List (String × β)) (k k₂ : String)
    (h : k₂ ≠ k) : lookupAssoc (delAssoc l k₂) k = lookupAssoc l k := by
  induction l with
  | nil => rfl
  | cons p rest ih =>
    simp only [delAssoc, List.filter_cons, decide_not] at ih ⊢
    by_cases hp : p.1 = k₂
    · have hpk : ¬ (p.1 = k) := by rw [hp]; exact h
      simp [hp, lookupAssoc, hpk, ih, h]
    · by_cases hk : p.1 = k
      · simp [hp, lookupAssoc, hk, Ne.symm h]
      · simp [hp, lookupAssoc, hk, ih]

theorem jsGetField_setField_ne (j : Json) (k k₂ : String) (v : Json) (h : k₂ ≠ k) :
    jsGetField (jsSetField j k₂ v) k = jsGetField j k := by
  cases j <;> simp [jsSetField, jsGetField]
  exact lookupAssoc_setAssoc_ne _ _ _ _ h

theorem jsGetField_setField_self (kvs : List (String × Json)) (k : String) (v : Json) :
    jsGetField (jsSetField (.obj kvs) k v) k = some v := by
  simp [jsSetField, jsGetField, lookupAssoc_setAssoc_self]

theorem jsGetField_delField_ne (j : Json) (k k₂ : String) (h : k₂ ≠ k) :
    jsGetField (delField j k₂) k = jsGetField j k := by
  cases j <;> simp [delField, jsGetField]
  exact lookupAssoc_delAssoc_ne _ _ _ h

theorem jsGetField_delField_self (j : Json) (k : String) :
    jsGetField (delField j k) k = none := by
  cases j <;> simp [delField, jsGetField]
  exact lookupAssoc_delAssoc_self _ _

/-! ## Supporting lemmas: the placeholder scanner -/

theorem hbr_tokens (L : String → Option String) (alt : Option EltState)
    (src : Option SrcElt) (cfg : Json) (e : Engine) :
    (handleBeforeRequest L alt src (some cfg) e).tokens = some (getNextToken e.tokens) := rfl

theorem hbr_snapshots (L : String → Option String) (alt : Option EltState)
    (src : Option SrcElt) (cfg : Json) (e : Engine) :
    (handleBeforeRequest L alt src (some cfg) e).snapshots
      = some (snapshotFn e.target cfg (getNextToken e.tokens)) := rfl

theorem handleError_run (L : String → Option String) (src : Option SrcElt)
    (fb : Option Json) (fd : FailDetail) (act : Bool) (e : Engine) (s : Snapshot)
    (hsnap : e.snapshots = some s) (htok : s.token = e.tokens) :
    (handleError L src fb fd act e).1.target
        = showError L src s.config fd
            { e.target with className := setOptimisticStateClass e.target.className "error" } ∧
      (handleError L src fb fd act e).1.tokens = e.tokens ∧
      (∃ f, (handleError L src fb fd act e).1.snapshots
          = some { innerHTML := s.innerHTML, className := s.className,
                   attributes := s.attributes, dataset := s.dataset,
                   config := s.config, token := s.token, focusRestore := f }) ∧
      (handleError L src fb fd act e).2
        = (if cfgDelayPos s.config then some e.tokens else none) := by
  simp only [handleError, hsnap]
  cases act <;> simp [htok]
  exact ⟨s.focusRestore, by cases s; simp_all⟩

theorem classContains_empty_tok (s : String) : classContains s "" = false := by
  by_cases h : ("" : String) ∈ classTokens s
  · exact absurd rfl (classTokens_good s "" h).1
  · simpa [classContains] using h

theorem applyValueEntry_attrs (src : Option SrcElt) (acc : EltState)
    (kv : String × Json) : (applyValueEntry src acc kv).attrs = acc.attrs := by
  unfold applyValueEntry
  split_ifs <;> rfl

theorem applyValueEntry_dataset (src : Option SrcElt) (acc : EltState)
    (kv : String × Json) (h : String.mk (kv.1.data.take 5) ≠ "data-") :
    (applyValueEntry src acc kv).dataset = acc.dataset := by
  unfold applyValueEntry
  split_ifs <;> rfl

theorem applyValues_attrs (src : Option SrcElt) :
    ∀ (values : List (String × Json)) (t : EltState),
      (applyValues t values src).attrs = t.attrs := by
  intro values
  induction values with
  | nil => intro t; rfl
  | cons kv rest ih =>
    intro t
    show (List.foldl (applyValueEntry src) (applyValueEntry src t kv) rest).attrs = t.attrs
    rw [show List.foldl (applyValueEntry src) (applyValueEntry src t kv) rest
        = applyValues (applyValueEntry src t kv) rest src from rfl]
    rw [ih (applyValueEntry src t kv), applyValueEntry_attrs]

theorem applyValues_dataset (src : Option SrcElt) :
    ∀ (values : List (String × Json)) (t : EltState),
      (∀ kv ∈ values, String.mk (kv.1.data.take 5) ≠ "data-") →
      (applyValues t values src).dataset = t.dataset := by
  intro values
  induction values with
  | nil => intro t _; rfl
  | cons kv rest ih =>
    intro t hv
    show (List.foldl (applyValueEntry src) (applyValueEntry src t kv) rest).dataset = t.dataset
    rw [show List.foldl (applyValueEntry src) (applyValueEntry src t kv) rest
        = applyValues (applyValueEntry src t kv) rest src from rfl]
    rw [ih (applyValueEntry src t kv) (fun q hq => hv q (by simp [hq])),
      applyValueEntry_dataset _ _ _ (hv kv (by simp))]

theorem applyValuesBranch_preserves (src : Option SrcElt) (cfg : Json) (x : EltState)
    (hv : ∀ kv ∈ cfgValuesEntries cfg, String.mk (kv.1.data.take 5) ≠ "data-") :
    (applyValuesBranch src cfg x).1.dataset = x.dataset ∧
      (applyValuesBranch src cfg x).1.attrs = x.attrs := by
  unfold applyValuesBranch
  unfold cfgValuesEntries at hv
  cases h2 : jsGetField cfg "values" with
  | none => exact ⟨rfl, rfl⟩
  | some v =>
    rw [h2] at hv
    cases v with
    | obj kvs => exact ⟨applyValues_dataset src kvs x hv, applyValues_attrs src kvs x⟩
    | null => exact ⟨rfl, rfl⟩
    | bool b => exact ⟨rfl, rfl⟩
    | num n => exact ⟨rfl, rfl⟩
    | str s => exact ⟨rfl, rfl⟩
    | arr xs => exact ⟨rfl, rfl⟩

theorem applyContent_preserves (L : String → Option String) (src : Option SrcElt)
    (cfg : Json) (x : EltState)
    (hv : ∀ kv ∈ cfgValuesEntries cfg, String.mk (kv.1.data.take 5) ≠ "data-") :
    (applyContent L src cfg x).1.dataset = x.dataset ∧
      (applyContent L src cfg x).1.attrs = x.attrs := by
  unfold applyContent
  cases h1 : jsGetField cfg "template" with
  | none => exact applyValuesBranch_preserves src cfg x hv
  | some tv =>
    by_cases htr : jsTruthy tv
    · simp only [htr, if_true]
      split
      · split
        · split <;> exact ⟨rfl, rfl⟩
        · split <;> exact ⟨rfl, rfl⟩
      · exact ⟨rfl, rfl⟩
    · simp only [htr, if_false]
      exact applyValuesBranch_preserves src cfg x hv

theorem applyOptimistic_primary_preserves (L : String → Option String)
    (alt : Option EltState) (t : EltState) (src : Option SrcElt) (cfg : Json)
    (hv : ∀ kv ∈ cfgValuesEntries cfg, String.mk (kv.1.data.take 5) ≠ "data-") :
    (applyOptimistic L alt t src cfg).primary.dataset = t.dataset ∧
      (applyOptimistic L alt t src cfg).primary.attrs = t.attrs := by
  unfold applyOptimistic
  by_cases h : jsFieldTruthy cfg "target" = true
  · simp only [h, if_true]
    cases alt with
    | some a => exact ⟨rfl, rfl⟩
    | none => exact applyContent_preserves L src cfg t hv
  · simp only [h, if_false]
    exact applyContent_preserves L src cfg t hv

theorem hbr_target_fields (L : String → Option String) (alt : Option EltState)
    (src : Option SrcElt) (cfg : Json) (e : Engine) :
    (handleBeforeRequest L alt src (some cfg) e).target.dataset
        = (applyOptimistic L alt e.target src cfg).primary.dataset ∧
      (handleBeforeRequest L alt src (some cfg) e).target.attrs
        = (applyOptimistic L alt e.target src cfg).primary.attrs ∧
      (handleBeforeRequest L alt src (some cfg) e).target.content
        = (applyOptimistic L alt e.target src cfg).primary.content :=
  ⟨rfl, rfl, rfl⟩

theorem showError_dataset_attrs (L : String → Option String) (src : Option SrcElt)
    (config : Json) (fd : FailDetail) (t : EltState)
    (h : lookupAssoc t.dataset "hxOptimisticErrorShown" = none) :
    (showError L src config fd t).dataset
        = t.dataset ++ [("hxOptimisticErrorShown", "true")] ∧
      (showError L src config fd t).attrs = t.attrs := by
  have hset : setAssoc t.dataset "hxOptimisticErrorShown" "true"
      = t.dataset ++ [("hxOptimisticErrorShown", "true")] :=
    setAssoc_of_lookup_none _ _ _ h
  unfold showError
  rw [show (match lookupAssoc t.dataset "hxOptimisticErrorShown" with
      | some v => decide (v ≠ "") | none => false) = false from by rw [h]]
  simp only [Bool.false_eq_true, if_false]
  cases h1 : jsGetField config "errorTemplate" with
  | none =>
    cases h2 : jsGetField config "errorMessage" with
    | none => exact ⟨hset, rfl⟩
    | some mv =>
      by_cases hm : jsTruthy mv
      · by_cases ha : cfgErrorModeAppend config = true <;> simp [hm, ha, hset]
      · simp [hm, hset]
  | some tv =>
    by_cases htr : jsTruthy tv
    · simp only [htr, if_true]
      split
      · split
        · by_cases ha : cfgErrorModeAppend config = true <;> simp [ha, hset]
        · exact ⟨hset, rfl⟩
      · exact ⟨hset, rfl⟩
    · simp only [htr, if_false]
      cases h2 : jsGetField config "errorMessage" with
      | none => exact ⟨hset, rfl⟩
      | some mv =>
        by_cases hm : jsTruthy mv
        · by_cases ha : cfgErrorModeAppend config = true <;> simp [hm, ha, hset]
        · simp [hm, hset]

theorem cleanupE_fields (e₀ : Engine) :
    (cleanupE e₀).target.dataset
        = e₀.target.dataset.filter (fun p => isHxOptimisticKey p.1 = false) ∧
      (cleanupE e₀).target.attrs = e₀.target.attrs ∧
      (cleanupE e₀).target.content
        = e₀.target.content.filter (fun i => isErrorMsgItem i = false) ∧
      (cleanupE e₀).snapshots = none := by
  unfold cleanupE
  cases h : e₀.snapshots with
  | none => exact ⟨rfl, rfl, rfl, rfl⟩
  | some snap =>
    by_cases hc : jsFieldTruthy snap.config "class" = true <;> simp [hc]

/-! ## Claim C4: target resolver dispatch -/

/-- C4: for every selector-chain string passed to the target resolver, the
empty selector or the literal self-marker this returns the source element; a
selector that does not begin (as a string prefix) with one of the four
combinator keywords is evaluated as a plain global document query; a selector
in chain mode is walked pairwise from the source; and inside a combinator
chain an unknown leading operator, or a failed step, terminates resolution
with null. -/
theorem C4_resolveTargetChain_spec (d : Doc) (src : Nat) (sel : String) :
    resolveTargetChain d src "" = some src ∧
    resolveTargetChain d src "this" = some src ∧
    (sel ≠ "" → sel ≠ "this" → startsWithAnyKeyword (strTrim sel) = false →
      resolveTargetChain d src sel = docQuerySelector d (strTrim sel)) ∧
    (sel ≠ "" → sel ≠ "this" → startsWithAnyKeyword (strTrim sel) = true →
      resolveTargetChain d src sel = chainLoop d src (splitWs (strTrim sel))) ∧
    (∀ ctx op rest, op ∉ chainKeywords → chainLoop d ctx (op :: rest) = none) ∧
    (∀ ctx op sel₂ rest, chainStep d ctx op sel₂ = none →
      chainLoop d ctx (op :: sel₂ :: rest) = none) := by
  refine ⟨rfl, rfl, ?_, ?_, ?_, ?_⟩
  · intro h1 h2 h3
    simp [resolveTargetChain, h1, h2, h3]
  · intro h1 h2 h3
    simp [resolveTargetChain, h1, h2, h3]
  · intro ctx op rest hop
    have h1 : ¬ (op = "closest") := fun hh => hop (by simp [hh, chainKeywords])
    have h2 : ¬ (op = "find") := fun hh => hop (by simp [hh, chainKeywords])
    have h3 : ¬ (op = "next") := fun hh => hop (by simp [hh, chainKeywords])
    have h4 : ¬ (op = "previous") := fun hh => hop (by simp [hh, chainKeywords])
    have hstep : ∀ s₂, chainStep d ctx op s₂ = none := by
      intro s₂; simp [chainStep, h1, h2, h3, h4]
    cases rest with
    | nil => simp [chainLoop, hstep]
    | cons s₂ rest₂ => simp [chainLoop, hstep]
  · intro ctx op sel₂ rest hstep
    simp [chainLoop, hstep]

/-- Witness for C4: a plain class selector falls through to the global query,
an unknown leading operator inside a chain yields null, and a failed closest
step yields null, on the concrete four-node document. -/
theorem C4_resolveTargetChain_spec_witness :
    resolveTargetChain fixDoc 3 ".title" = docQuerySelector fixDoc ".title" ∧
    chainLoop fixDoc 3 ["nextish", ".x"] = none ∧
    chainLoop fixDoc 3 ["closest", ".nope"] = none :=
  ⟨(C4_resolveTargetChain_spec fixDoc 3 ".title").2.2.1
      (by decide) (by decide) (by decide),
   (C4_resolveTargetChain_spec fixDoc 3 ".title").2.2.2.2.1 3 "nextish" [".x"]
      (by decide),
   (C4_resolveTargetChain_spec fixDoc 3 ".title").2.2.2.2.2 3 "closest" ".nope" []
      (by rfl)⟩

/-! ## Claim C3: config parsing -/

/-- C7: a config with delay equal to 0 keeps 0 through default filling (the
2000ms default applies only when the delay field is absent, via the nullish
coalescing operator); a failure handled under such a config schedules no
revert, on the snapshot-config path and on the fallback-config path alike;
and with nothing scheduled, the passage of time leaves the engine, and hence
the error visual state, untouched. -/
theorem C7_delay_zero_no_auto_revert (tag cls : String) (cfgJ : Json)
    (kvs : List (String × Json)) (L : String → Option String) (src : Option SrcElt)
    (fb : Option Json) (fd : FailDetail) (act : Bool) (e : Engine) :
    (jsGetField cfgJ "delay" = some (Json.num 0) →
      jsGetField (applyConfigDefaults tag cls cfgJ) "delay" = some (Json.num 0)) ∧
    (lookupAssoc kvs "delay" = none →
      jsGetField (applyConfigDefaults tag cls (Json.obj kvs)) "delay"
        = some (Json.num 2000)) ∧
    (∀ s, e.snapshots = some s → jsGetField s.config "delay" = some (Json.num 0) →
      (handleError L src fb fd act e).2 = none) ∧
    (∀ cfg, e.snapshots = none → jsGetField cfg "delay" = some (Json.num 0) →
      (handleError L src (some cfg) fd act e).2 = none) ∧
    (∀ e₂ : Engine, fireSchedule e₂ none = e₂) := by
  have hvd : ("values" : String) ≠ "delay" := by decide
  have hed : ("errorMode" : String) ≠ "delay" := by decide
  have hmd : ("errorMessage" : String) ≠ "delay" := by decide
  refine ⟨?_, ?_, ?_, ?_, fun _ => rfl⟩
  · intro h
    have hobj : ∃ okvs, cfgJ = Json.obj okvs := by
      cases cfgJ <;> simp [jsGetField] at h
      exact ⟨_, rfl⟩
    obtain ⟨okvs, rfl⟩ := hobj
    simp only [applyConfigDefaults, h]
    split
    · rw [jsGetField_setField_ne _ _ _ _ hvd, jsGetField_setField_ne _ _ _ _ hmd,
        jsGetField_setField_ne _ _ _ _ hed]
      exact jsGetField_setField_self okvs "delay" (Json.num 0)
    · rw [jsGetField_setField_ne _ _ _ _ hmd, jsGetField_setField_ne _ _ _ _ hed]
      exact jsGetField_setField_self okvs "delay" (Json.num 0)
  · intro h
    have hget : jsGetField (Json.obj kvs) "delay" = none := by simp [jsGetField, h]
    simp only [applyConfigDefaults, hget]
    split
    · rw [jsGetField_setField_ne _ _ _ _ hvd, jsGetField_setField_ne _ _ _ _ hmd,
        jsGetField_setField_ne _ _ _ _ hed]
      exact jsGetField_setField_self kvs "delay" (Json.num 2000)
    · rw [jsGetField_setField_ne _ _ _ _ hmd, jsGetField_setField_ne _ _ _ _ hed]
      exact jsGetField_setField_self kvs "delay" (Json.num 2000)
  · intro s hsnap hdel
    have hpos : cfgDelayPos s.config = false := by simp [cfgDelayPos, hdel]
    simp only [handleError, hsnap]
    by_cases hstale : s.token = e.tokens
    · cases act <;> simp [hstale, hpos]
    · cases act <;> simp [hstale, hpos]
  · intro cfg hsnap hdel
    have hpos : cfgDelayPos cfg = false := by simp [cfgDelayPos, hdel]
    simp only [handleError, hsnap]
    cases act <;> simp [hpos]

/-- Witness for C7: on a concrete delay-0 config resolved from the raw
attribute, the engine schedules no revert after a failure, and time passage
without a schedule changes nothing. -/
theorem C7_delay_zero_no_auto_revert_witness :
    (handleError noTmpl none none fdFix false
        (handleBeforeRequest noTmpl none none
          (getOptimisticConfig "DIV" "btn"
            (some "\x7b\"delay\":0,\"errorMessage\":\"E\"\x7d")) cleanEngine)).2 = none ∧
    fireSchedule cleanEngine none = cleanEngine := by
  constructor
  · exact (C7_delay_zero_no_auto_revert "DIV" "btn" Json.null [] noTmpl none none
      fdFix false _).2.2.1 _ rfl rfl
  · exact (C7_delay_zero_no_auto_revert "DIV" "btn" Json.null [] noTmpl none none
      fdFix false cleanEngine).2.2.2.2 cleanEngine

/-! ## Claim C5: interpolator throw behaviour, literal preservation, diagnostics -/

theorem applyContent_delField_target (L : String → Option String) (src : Option SrcElt)
    (cfg : Json) (t : EltState) :
    applyContent L src (delField cfg "target") t = applyContent L src cfg t := by
  have hv : ("target" : String) ≠ "values" := by decide
  have ht : ("target" : String) ≠ "template" := by decide
  have hc : ("target" : String) ≠ "context" := by decide
  have hs : ("target" : String) ≠ "swap" := by decide
  unfold applyContent applyValuesBranch contextEntries
  rw [jsGetField_delField_ne cfg "values" "target" hv,
    jsGetField_delField_ne cfg "template" "target" ht,
    jsGetField_delField_ne cfg "context" "target" hc,
    jsGetField_delField_ne cfg "swap" "target" hs]

/-- C9: when config.target is set but the alternate optimistic target fails
to resolve, applyOptimistic falls back to applying the optimistic content to
the primary resolved target — behaving exactly as the same config without the
alternate selector — rather than aborting the operation, and the diagnostics
emitted are exactly those of content application (none mention the failed
resolution). -/
theorem C9_applyOptimistic_fallback (L : String → Option String) (t : EltState)
    (src : Option SrcElt) (cfg : Json) (h : jsFieldTruthy cfg "target" = true) :
    applyOptimistic L none t src cfg
      = { primary := (applyContent L src cfg t).1, alt := none,
          warns := (applyContent L src cfg t).2 } ∧
    (applyOptimistic L none t src cfg).primary
      = (applyOptimistic L none t src (delField cfg "target")).primary ∧
    (applyOptimistic L none t src cfg).warns
      = (applyOptimistic L none t src (delField cfg "target")).warns := by
  have h2 : jsFieldTruthy (delField cfg "target") "target" = false := by
    simp [jsFieldTruthy, jsGetField_delField_self]
  refine ⟨by simp [applyOptimistic, h], ?_, ?_⟩
  · simp [applyOptimistic, h, h2, applyContent_delField_target]
  · simp [applyOptimistic, h, h2, applyContent_delField_target]

/-- Witness for C9 on a concrete config whose alternate target selector
resolves to nothing: the primary target receives the optimistic text. -/
theorem C9_applyOptimistic_fallback_witness :
    applyOptimistic noTmpl none cleanPre none
        (Json.obj [("target", Json.str ".missing"),
                   ("values", Json.obj [("textContent", Json.str "X")])])
      = { primary := (applyContent noTmpl none
            (Json.obj [("target", Json.str ".missing"),
                       ("values", Json.obj [("textContent", Json.str "X")])]) cleanPre).1,
          alt := none,
          warns := (applyContent noTmpl none
            (Json.obj [("target", Json.str ".missing"),
                       ("values", Json.obj [("textContent", Json.str "X")])]) cleanPre).2 } :=
  (C9_applyOptimistic_fallback noTmpl cleanPre none
    (Json.obj [("target", Json.str ".missing"),
               ("values", Json.obj [("textContent", Json.str "X")])]) (by decide)).1

/-! ## Claim C2: token monotonicity and stale-cycle handling -/

/-- Counterexample for C2 as stated: on a concrete target, begin followed
immediately by a second begin and then by the failure event of the first
request produces a visible change — the error state class appears and the
markup changes.  The failure event identifies its cycle only through the
triggering element; the handler finds the second cycle's snapshot, whose
token equals the current token, so the staleness guard does not fire. -/
theorem C2_counterexample :
    (let e₂ := handleBeforeRequest noTmpl none none
        (getOptimisticConfig "DIV" "btn" (some rawCfgBasic))
        (handleBeforeRequest noTmpl none none
          (getOptimisticConfig "DIV" "btn" (some rawCfgBasic)) cleanEngine)
     let r := handleError noTmpl none none fdFix false e₂
     classContains e₂.target.className "hx-optimistic-error" = false ∧
       classContains r.1.target.className "hx-optimistic-error" = true ∧
       innerHTMLOf r.1.target ≠ innerHTMLOf e₂.target) := by
  decide

/-- C2 (amended): begin followed immediately by a second begin on the same
target strictly increases the concurrency token (a monotonically increasing
integer per target); the stale callback that the token guard silently
discards is the scheduled revert — a revert carrying the first cycle's token
that fires after the second begin produces no change at all.  (A failure
event after the second begin renders the error for the current cycle, since
it carries no token of its own; see the counterexample.) -/
theorem C2_token_monotone_stale_revert (L : String → Option String)
    (alt : Option EltState) (src : Option SrcElt) (cfg cfg₂ : Json) (e : Engine) :
    (handleBeforeRequest L alt src (some cfg) e).tokens
        = some (getNextToken e.tokens) ∧
    (handleBeforeRequest L alt src (some cfg₂)
        (handleBeforeRequest L alt src (some cfg) e)).tokens
        = some (getNextToken e.tokens + 1) ∧
    getNextToken e.tokens < getNextToken e.tokens + 1 ∧
    revertE (handleBeforeRequest L alt src (some cfg₂)
        (handleBeforeRequest L alt src (some cfg) e))
        (some (getNextToken e.tokens))
      = handleBeforeRequest L alt src (some cfg₂)
          (handleBeforeRequest L alt src (some cfg) e) := by
  refine ⟨rfl, rfl, Nat.lt_succ_self _, ?_⟩
  have hsnap := hbr_snapshots L alt src cfg₂ (handleBeforeRequest L alt src (some cfg) e)
  rw [revertE.eq_def, hsnap]
  simp [snapshotFn, hbr_tokens, getNextToken]

/-! ## Claim C6: engine bookkeeping and the element's visible state -/

/-- Counterexample for C6 as stated: after begin and fail on a concrete
element, the engine's error-shown cycle marker is sitting in the element's
visible dataset (reflected as a data attribute), so transient bookkeeping
does leak onto the element. -/
theorem C6_counterexample :
    lookupAssoc ((handleError noTmpl none none fdFix false
        (handleBeforeRequest noTmpl none none
          (getOptimisticConfig "DIV" "btn" (some rawCfgBasic)) cleanEngine)).1.target.dataset)
      "hxOptimisticErrorShown" = some "true" := by
  decide

/-- C6 (amended): snapshots, tokens and trigger-target links live only in the
engine-private WeakMap stores and never touch the element: begin leaves the
element's dataset and its attribute set apart from class unchanged — for
configs whose values map writes only the content and class channels
(textContent, innerHTML, className); a data-* key writes the dataset
directly, and a plain property write (targetElt[key] = v) can reach the
visible attribute set through DOM attribute reflection (id, title and the
other reflected built-ins), which the embedding does not model — and the only
element-visible bookkeeping is the error-shown cycle marker that fail writes
into the dataset; cleanup removes it again, restoring the pre-cycle dataset
and attributes exactly. -/
theorem C6_bookkeeping_stays_private (L : String → Option String)
    (alt : Option EltState) (src : Option SrcElt) (fb : Option Json)
    (fd : FailDetail) (cfg : Json) (e : Engine)
    (hv : ∀ kv ∈ cfgValuesEntries cfg,
      kv.1 = "textContent" ∨ kv.1 = "innerHTML" ∨ kv.1 = "className")
    (hclean : lookupAssoc e.target.dataset "hxOptimisticErrorShown" = none)
    (hkeys : ∀ p ∈ e.target.dataset, isHxOptimisticKey p.1 = false) :
    (handleBeforeRequest L alt src (some cfg) e).target.dataset = e.target.dataset ∧
    (handleBeforeRequest L alt src (some cfg) e).target.attrs = e.target.attrs ∧
    (handleError L src fb fd false
        (handleBeforeRequest L alt src (some cfg) e)).1.target.dataset
      = e.target.dataset ++ [("hxOptimisticErrorShown", "true")] ∧
    (handleError L src fb fd false
        (handleBeforeRequest L alt src (some cfg) e)).1.target.attrs
      = e.target.attrs ∧
    (cleanupE (handleError L src fb fd false
        (handleBeforeRequest L alt src (some cfg) e)).1).target.dataset
      = e.target.dataset ∧
    (cleanupE (handleError L src fb fd false
        (handleBeforeRequest L alt src (some cfg) e)).1).target.attrs
      = e.target.attrs := by
  have hv' : ∀ kv ∈ cfgValuesEntries cfg, String.mk (kv.1.data.take 5) ≠ "data-" := by
    intro kv hkv
    rcases hv kv hkv with h | h | h <;> rw [h] <;> decide
  have hap := applyOptimistic_primary_preserves L alt e.target src cfg hv'
  have hbrf := hbr_target_fields L alt src cfg e
  have hds : (handleBeforeRequest L alt src (some cfg) e).target.dataset
      = e.target.dataset := by rw [hbrf.1, hap.1]
  have hat : (handleBeforeRequest L alt src (some cfg) e).target.attrs
      = e.target.attrs := by rw [hbrf.2.1, hap.2]
  have hsnap := hbr_snapshots L alt src cfg e
  have htok : (snapshotFn e.target cfg (getNextToken e.tokens)).token
      = (handleBeforeRequest L alt src (some cfg) e).tokens := by
    rw [hbr_tokens]; rfl
  obtain ⟨htarget, htokens, ⟨f, hsnaps₂⟩, hsched⟩ :=
    handleError_run L src fb fd false (handleBeforeRequest L alt src (some cfg) e)
      _ hsnap htok
  have hshow := showError_dataset_attrs L src
    (snapshotFn e.target cfg (getNextToken e.tokens)).config fd
    { (handleBeforeRequest L alt src (some cfg) e).target with
      className := setOptimisticStateClass
        (handleBeforeRequest L alt src (some cfg) e).target.className "error" }
    (by simpa [hds] using hclean)
  have hfaildata : (handleError L src fb fd false
      (handleBeforeRequest L alt src (some cfg) e)).1.target.dataset
      = e.target.dataset ++ [("hxOptimisticErrorShown", "true")] := by
    rw [htarget]
    rw [hshow.1]
    simp [hds]
  have hfailattr : (handleError L src fb fd false
      (handleBeforeRequest L alt src (some cfg) e)).1.target.attrs
      = e.target.attrs := by
    rw [htarget, hshow.2]
    simpa using hat
  refine ⟨hds, hat, hfaildata, hfailattr, ?_, ?_⟩
  · have hcf := cleanupE_fields (handleError L src fb fd false
      (handleBeforeRequest L alt src (some cfg) e)).1
    rw [hcf.1, hfaildata, List.filter_append]
    rw [List.filter_eq_self.mpr (fun p hp => by simp [hkeys p hp])]
    simp [isHxOptimisticKey, strStartsWith]
  · have hcf := cleanupE_fields (handleError L src fb fd false
      (handleBeforeRequest L alt src (some cfg) e)).1
    rw [hcf.2.1, hfailattr]

/-- Witness for C6: on the concrete clean element, begin leaves the dataset
untouched, fail adds exactly the error-shown marker, and cleanup restores the
pre-cycle dataset. -/
theorem C6_bookkeeping_stays_private_witness :
    (handleBeforeRequest noTmpl none none
        (some (Json.obj [("values", Json.obj [("textContent", Json.str "S")]),
          ("errorMessage", Json.str "F"), ("delay", Json.num 50)])) cleanEngine).target.dataset
      = cleanPre.dataset ∧
    (cleanupE (handleError noTmpl none none fdFix false
        (handleBeforeRequest noTmpl none none
          (some (Json.obj [("values", Json.obj [("textContent", Json.str "S")]),
            ("errorMessage", Json.str "F"), ("delay", Json.num 50)])) cleanEngine)).1).target.dataset
      = cleanPre.dataset := by
  have h := C6_bookkeeping_stays_private noTmpl none none none fdFix
    (Json.obj [("values", Json.obj [("textContent", Json.str "S")]),
      ("errorMessage", Json.str "F"), ("delay", Json.num 50)]) cleanEngine
    (by decide) (by decide) (by decide)
  exact ⟨h.1, h.2.2.2.2.1⟩

/-! ## Claim C8: cleanup round trip -/

end HxOptimistic
